import Mathlib

/-!
Shallow embedding of `prototype.py` (the oppskrifter recipe store) and proofs
about its versioned-recipe persistence model.

The embedding mirrors the source faithfully:
* the pydantic models become Lean structures (`Ingredient`, `RecipeIngredient`,
  `Instruction`, `Tag`, `Recipe`);
* the SQLite database reachable through the module's connection becomes an
  explicit state `DB`: one list of rows per table plus the AUTOINCREMENT
  counters; row ids are assigned the way `lastrowid` reports them;
* `get_or_create_ingredient`, `get_or_create_tag` and `insert_recipe` become
  state-passing functions; a statement that raises in Python
  (`sqlite3.IntegrityError` on a primary-key violation, `AttributeError` on
  dereferencing a `None` list entry) returns an error while the state
  accumulated so far is kept, matching the fact that the Python code issues
  no rollback: the connection keeps the rows already inserted;
* the DDL strings of `create_tables` are additionally transcribed literally
  into a schema description (`create_tables`), used for claims about what the
  stored schema declares.
-/

namespace Prototype

/-- `class Unit(str, Enum)` from the source: measurement units. -/
inductive Unit where
  | gram
  | kilogram
  | milliliter
  | liter
  | deciliter
  | pcs
  deriving DecidableEq, BEq

/-- The TEXT value stored for a unit (the str-enum's value). -/
def Unit.text : Unit → String
  | .gram => "g"
  | .kilogram => "kg"
  | .milliliter => "ml"
  | .liter => "l"
  | .deciliter => "dl"
  | .pcs => "pcs"

/-- `class IngredientCategory(str, Enum)` from the source. -/
inductive IngredientCategory where
  | vegetable
  | meat
  | fish
  | fruit
  | spice
  deriving DecidableEq, BEq

/-- The TEXT value stored for a category (the str-enum's value). -/
def IngredientCategory.text : IngredientCategory → String
  | .vegetable => "vegetable"
  | .meat => "meat"
  | .fish => "fish"
  | .fruit => "fruit"
  | .spice => "spice"

/-- `class Ingredient(BaseModel)`: a name and an optional category. -/
structure Ingredient where
  name : String
  category : Option IngredientCategory := none
  deriving DecidableEq, BEq

/-- `class RecipeIngredient(BaseModel)`: ingredient, quantity (a float in the
source; modelled as a rational, no arithmetic is ever done on it), unit. -/
structure RecipeIngredient where
  ingredient : Ingredient
  quantity : ℚ
  unit : Unit
  deriving DecidableEq, BEq

/-- `class Instruction(BaseModel)`. -/
structure Instruction where
  step_number : Int
  description : String
  deriving DecidableEq, BEq

/-- `class Tag(BaseModel)`: a name and `children: Self | None`, i.e. one
optional nested child tag, so the type is an inductive chain. -/
inductive Tag where
  | mk (name : String) (children : Option Tag)

/-- Field accessor `tag.name`. -/
def Tag.name : Tag → String
  | .mk n _ => n

/-- Field accessor `tag.children`. -/
def Tag.children : Tag → Option Tag
  | .mk _ c => c

/-- `class Recipe(BaseModel)`. The three lists admit `None` entries, exactly
as the source annotations `list[RecipeIngredient | None]` etc. permit. -/
structure Recipe where
  title : String
  description : Option String := none
  comments : Option String := none
  prep_time : Option Int := none
  cook_time : Option Int := none
  servings : Option Int := none
  ingredients : List (Option RecipeIngredient)
  instructions : List (Option Instruction)
  tags : List (Option Tag)

/-! ### Rows of the six tables created by `create_tables` -/

/-- A row of the `recipes` table. `group` is the nullable `group_id` column. -/
structure RecipeRow where
  id : Nat
  group : Option Nat
  version : Nat
  title : String
  description : Option String
  comments : Option String
  prep_time : Option Int
  cook_time : Option Int
  servings : Option Int
  deriving DecidableEq, BEq

/-- A row of the `ingredients` table; `category` holds the stored TEXT. -/
structure IngredientRow where
  id : Nat
  name : String
  category : Option String
  deriving DecidableEq, BEq

/-- A row of the `recipe_ingredients` join table; `unit` holds the stored TEXT. -/
structure RecipeIngredientRow where
  recipe_id : Nat
  ingredient_id : Nat
  quantity : ℚ
  unit : String
  deriving DecidableEq, BEq

/-- A row of the `instructions` table. -/
structure InstructionRow where
  id : Nat
  recipe_id : Nat
  step_number : Int
  description : String
  deriving DecidableEq, BEq

/-- A row of the `tags` table. -/
structure TagRow where
  id : Nat
  name : String
  deriving DecidableEq, BEq

/-- A row of the `recipe_tags` join table. -/
structure RecipeTagRow where
  recipe_id : Nat
  tag_id : Nat
  deriving DecidableEq, BEq

/-- The database state visible through the module's sqlite3 connection: the
six tables plus the AUTOINCREMENT counters (next value each `lastrowid`
will report; sqlite assigns 1 to the first row of a table). -/
structure DB where
  recipes : List RecipeRow
  ingredients : List IngredientRow
  recipe_ingredients : List RecipeIngredientRow
  instructions : List InstructionRow
  tags : List TagRow
  recipe_tags : List RecipeTagRow
  nextRecipeId : Nat
  nextIngredientId : Nat
  nextTagId : Nat
  nextInstructionId : Nat
  deriving DecidableEq, BEq

/-- The state right after `create_tables` on a fresh database file: all six
tables empty, every AUTOINCREMENT counter at 1. -/
def DB.empty : DB :=
  ⟨[], [], [], [], [], [], 1, 1, 1, 1⟩

/-- Errors a statement can raise inside `insert_recipe`:
`integrityError` models `sqlite3.IntegrityError` (primary-key violation on a
join-table insert), `attributeError` models Python's `AttributeError` when a
`None` list entry is dereferenced (`instr.step_number`, `ri.ingredient`,
`tag.name`). -/
inductive DBError where
  | integrityError
  | attributeError
  deriving DecidableEq, BEq

/-! ### Helper insertion functions (`get_or_create_…`) -/

/-- `get_or_create_ingredient`: `SELECT id FROM ingredients WHERE name = ?`
(first matching row); if found return its id, else
`INSERT INTO ingredients (name, category) VALUES (?, ?)` and return
`lastrowid`. -/
def get_or_create_ingredient (db : DB) (ingredient : Ingredient) : DB × Nat :=
  match db.ingredients.find? (fun row => row.name == ingredient.name) with
  | some row => (db, row.id)
  | none =>
      let newId := db.nextIngredientId
      ({ db with
          ingredients :=
            db.ingredients ++ [⟨newId, ingredient.name, ingredient.category.map IngredientCategory.text⟩],
          nextIngredientId := newId + 1 },
       newId)

/-- `get_or_create_tag`: lookup by `tag.name` only; the `children` field is
never read by the source. -/
def get_or_create_tag (db : DB) (tag : Tag) : DB × Nat :=
  match db.tags.find? (fun row => row.name == tag.name) with
  | some row => (db, row.id)
  | none =>
      let newId := db.nextTagId
      ({ db with
          tags := db.tags ++ [⟨newId, tag.name⟩],
          nextTagId := newId + 1 },
       newId)

/-! ### `insert_recipe` -/

/-- `SELECT MAX(version) FROM recipes WHERE group_id = ?` followed by
`fetchone()[0] or 0`: the maximum version among rows of the group, 0 when
the group has no rows. -/
def maxVersionRows (rows : List RecipeRow) (g : Nat) : Nat :=
  ((rows.filter (fun row => row.group == some g)).map (fun row => row.version)).foldl max 0

/-- `maxVersionRows` read off a database state. -/
def maxVersion (db : DB) (g : Nat) : Nat :=
  maxVersionRows db.recipes g

/-- The scalar part of `insert_recipe` (lines 163–183 of the source): insert
the recipe row and determine `(recipe_id, version)`.

* `group_id is None`: insert with `group_id = NULL, version = 1`, take
  `lastrowid`, then `UPDATE recipes SET group_id = ? WHERE id = ?` with that
  id (the self-link).
* otherwise: `version = (MAX(version) in the group or 0) + 1` and insert with
  the given `group_id`. -/
def insertScalar (db : DB) (recipe : Recipe) (group_id : Option Nat) : DB × Nat × Nat :=
  match group_id with
  | none =>
      let rid := db.nextRecipeId
      let row : RecipeRow :=
        ⟨rid, none, 1, recipe.title, recipe.description, recipe.comments,
         recipe.prep_time, recipe.cook_time, recipe.servings⟩
      let db1 := { db with recipes := db.recipes ++ [row], nextRecipeId := rid + 1 }
      let db2 := { db1 with
        recipes := db1.recipes.map (fun rw => if rw.id == rid then { rw with group := some rid } else rw) }
      (db2, rid, 1)
  | some g =>
      let version := maxVersion db g + 1
      let rid := db.nextRecipeId
      let row : RecipeRow :=
        ⟨rid, some g, version, recipe.title, recipe.description, recipe.comments,
         recipe.prep_time, recipe.cook_time, recipe.servings⟩
      ({ db with recipes := db.recipes ++ [row], nextRecipeId := rid + 1 }, rid, version)

/-- The `for instr in recipe.instructions` loop: insert each instruction row;
a `None` entry raises `AttributeError` at `instr.step_number`, leaving the
rows already inserted in place. (The `if recipe.instructions:` truthiness
guard is the same as doing nothing on an empty list.) -/
def insertInstructions (db : DB) (rid : Nat) : List (Option Instruction) → DB × Option DBError
  | [] => (db, none)
  | none :: _ => (db, some DBError.attributeError)
  | some instr :: rest =>
      let db1 := { db with
        instructions :=
          db.instructions ++ [⟨db.nextInstructionId, rid, instr.step_number, instr.description⟩],
        nextInstructionId := db.nextInstructionId + 1 }
      insertInstructions db1 rid rest

/-- The `for ri in recipe.ingredients` loop: resolve the ingredient, then
`INSERT INTO recipe_ingredients …`; the table's
`PRIMARY KEY (recipe_id, ingredient_id)` makes the insert raise
`IntegrityError` when that pair already has a row. A `None` entry raises
`AttributeError` at `ri.ingredient`. -/
def insertIngredients (db : DB) (rid : Nat) : List (Option RecipeIngredient) → DB × Option DBError
  | [] => (db, none)
  | none :: _ => (db, some DBError.attributeError)
  | some ri :: rest =>
      let step := get_or_create_ingredient db ri.ingredient
      if (step.1.recipe_ingredients.any
            (fun l => l.recipe_id == rid && l.ingredient_id == step.2)) then
        (step.1, some DBError.integrityError)
      else
        let db1 := { step.1 with
          recipe_ingredients :=
            step.1.recipe_ingredients ++ [⟨rid, step.2, ri.quantity, ri.unit.text⟩] }
        insertIngredients db1 rid rest

/-- The `for tag in recipe.tags` loop: resolve the tag by name, then
`INSERT INTO recipe_tags …` with `PRIMARY KEY (recipe_id, tag_id)`. A `None`
entry raises `AttributeError` at `tag.name`. -/
def insertTags (db : DB) (rid : Nat) : List (Option Tag) → DB × Option DBError
  | [] => (db, none)
  | none :: _ => (db, some DBError.attributeError)
  | some tag :: rest =>
      let step := get_or_create_tag db tag
      if (step.1.recipe_tags.any
            (fun l => l.recipe_id == rid && l.tag_id == step.2)) then
        (step.1, some DBError.integrityError)
      else
        let db1 := { step.1 with
          recipe_tags := step.1.recipe_tags ++ [⟨rid, step.2⟩] }
        insertTags db1 rid rest

/-- The three detail loops of `insert_recipe`, in source order: instructions,
then ingredient links, then tag links. An error aborts the remaining
statements (the exception propagates) but keeps the state mutated so far. -/
def runDetails (db : DB) (rid : Nat) (recipe : Recipe) : DB × Option DBError :=
  match insertInstructions db rid recipe.instructions with
  | (db2, some e) => (db2, some e)
  | (db2, none) =>
      match insertIngredients db2 rid recipe.ingredients with
      | (db3, some e) => (db3, some e)
      | (db3, none) => insertTags db3 rid recipe.tags

/-- `insert_recipe(conn, recipe, group_id)`: scalar row (with group/version
assignment), then the detail rows, then `conn.commit()` and `return
recipe_id`. On an exception the function returns the error instead, and —
exactly like the source, which has no rollback — the state keeps every row
inserted before the failing statement. -/
def insert_recipe (db : DB) (recipe : Recipe) (group_id : Option Nat) : DB × Except DBError Nat :=
  let s := insertScalar db recipe group_id
  match runDetails s.1 s.2.1 recipe with
  | (db4, some e) => (db4, Except.error e)
  | (db4, none) => (db4, Except.ok s.2.1)

/-! ### Observations on a database state -/

/-- The `version` column of the recipe row with the given id, if any. -/
def versionOf (db : DB) (rid : Nat) : Option Nat :=
  (db.recipes.find? (fun row => row.id == rid)).map (fun row => row.version)

/-- The `group_id` column of the recipe row with the given id, if any. -/
def groupOf (db : DB) (rid : Nat) : Option (Option Nat) :=
  (db.recipes.find? (fun row => row.id == rid)).map (fun row => row.group)

/-- Every stored recipe id is below the AUTOINCREMENT counter. This holds for
every state the program can reach (`DB.empty` trivially, and each insert
assigns the counter's value and bumps it). -/
def recipesBound (db : DB) : Prop :=
  ∀ row ∈ db.recipes, row.id < db.nextRecipeId

instance (db : DB) : Decidable (recipesBound db) :=
  List.decidableBAll _ db.recipes

/-- Number of `ingredients` rows carrying a given name. -/
def countIngredientName (db : DB) (n : String) : Nat :=
  db.ingredients.countP (fun row => row.name == n)

/-- Number of `tags` rows carrying a given name. -/
def countTagName (db : DB) (n : String) : Nat :=
  db.tags.countP (fun row => row.name == n)

/-- `True` exactly on `Except.ok` results. -/
def isOkB : Except DBError Nat → Bool
  | Except.ok _ => true
  | Except.error _ => false

/-- A sequence of further `insert_recipe` calls all writing against the same
revision group `g`, threading the database state; returns the final state and
the per-call results in call order. -/
def chain (db : DB) (g : Nat) : List Recipe → DB × List (Except DBError Nat)
  | [] => (db, [])
  | r :: rs =>
      let step := insert_recipe db r (some g)
      let rest := chain step.1 g rs
      (rest.1, step.2 :: rest.2)

/-! ### The declared schema, transcribed from the DDL strings of `create_tables` -/

/-- Column constraints SQLite can declare inline; the DDL of this program uses
only the first two (`UNIQUE` appears nowhere in it, which is what the schema
claims are about). -/
inductive ColumnConstraint where
  | primaryKeyAutoincrement
  | notNull
  | unique
  deriving DecidableEq, BEq

/-- One column declaration of a `CREATE TABLE` statement. -/
structure ColumnDef where
  name : String
  sqlType : String
  constraints : List ColumnConstraint
  deriving DecidableEq, BEq

/-- One `FOREIGN KEY (column) REFERENCES refTable(refColumn)` clause. -/
structure ForeignKeyDef where
  column : String
  refTable : String
  refColumn : String
  onDeleteCascade : Bool
  deriving DecidableEq, BEq

/-- One `CREATE TABLE` statement: columns, an optional composite
`PRIMARY KEY (…)` clause, and the foreign-key clauses. -/
structure TableDef where
  name : String
  columns : List ColumnDef
  compositePrimaryKey : List String
  foreignKeys : List ForeignKeyDef
  deriving DecidableEq, BEq

/-- `create_tables`: the six `CREATE TABLE IF NOT EXISTS` statements of the
source, transcribed declaration by declaration. -/
def create_tables : List TableDef :=
  [ ⟨"recipes",
      [⟨"id", "INTEGER", [.primaryKeyAutoincrement]⟩,
       ⟨"group_id", "INTEGER", []⟩,
       ⟨"version", "INTEGER", [.notNull]⟩,
       ⟨"title", "TEXT", [.notNull]⟩,
       ⟨"description", "TEXT", []⟩,
       ⟨"comments", "TEXT", []⟩,
       ⟨"prep_time", "INTEGER", []⟩,
       ⟨"cook_time", "INTEGER", []⟩,
       ⟨"servings", "INTEGER", []⟩],
      [], []⟩,
    ⟨"ingredients",
      [⟨"id", "INTEGER", [.primaryKeyAutoincrement]⟩,
       ⟨"name", "TEXT", [.notNull]⟩,
       ⟨"category", "TEXT", []⟩],
      [], []⟩,
    ⟨"recipe_ingredients",
      [⟨"recipe_id", "INTEGER", []⟩,
       ⟨"ingredient_id", "INTEGER", []⟩,
       ⟨"quantity", "REAL", []⟩,
       ⟨"unit", "TEXT", []⟩],
      ["recipe_id", "ingredient_id"],
      [⟨"recipe_id", "recipes", "id", true⟩,
       ⟨"ingredient_id", "ingredients", "id", true⟩]⟩,
    ⟨"instructions",
      [⟨"id", "INTEGER", [.primaryKeyAutoincrement]⟩,
       ⟨"recipe_id", "INTEGER", []⟩,
       ⟨"step_number", "INTEGER", []⟩,
       ⟨"description", "TEXT", [.notNull]⟩],
      [],
      [⟨"recipe_id", "recipes", "id", true⟩]⟩,
    ⟨"tags",
      [⟨"id", "INTEGER", [.primaryKeyAutoincrement]⟩,
       ⟨"name", "TEXT", [.notNull]⟩],
      [], []⟩,
    ⟨"recipe_tags",
      [⟨"recipe_id", "INTEGER", []⟩,
       ⟨"tag_id", "INTEGER", []⟩],
      ["recipe_id", "tag_id"],
      [⟨"recipe_id", "recipes", "id", true⟩,
       ⟨"tag_id", "tags", "id", true⟩]⟩ ]

/-- Whether a table declares a `UNIQUE` constraint on the given column. -/
def declaresUniqueOn (t : TableDef) (col : String) : Bool :=
  t.columns.any (fun c => c.name == col && c.constraints.contains ColumnConstraint.unique)

instance : DecidableEq (Except DBError Nat)
  | Except.ok x, Except.ok y =>
      if h : x = y then isTrue (by rw [h]) else isFalse (by intro hc; cases hc; exact h rfl)
  | Except.ok _, Except.error _ => isFalse (by intro hc; cases hc)
  | Except.error _, Except.ok _ => isFalse (by intro hc; cases hc)
  | Except.error e, Except.error f =>
      if h : e = f then isTrue (by rw [h]) else isFalse (by intro hc; cases hc; exact h rfl)

/-! ### Generic list facts used below -/

/-- Mapping a function that fixes every element of a list is the identity. -/
theorem map_id_of_mem {α : Type} (l : List α) (f : α → α) (h : ∀ a ∈ l, f a = a) :
    l.map f = l := by
  induction l with
  | nil => rfl
  | cons x xs ih =>
      simp only [List.map_cons, h x (List.mem_cons_self x xs)]
      rw [ih (fun a ha => h a (List.mem_cons_of_mem x ha))]

/-- `find?` over an append whose left part has no hit. -/
theorem find?_append_left_none {α : Type} {p : α → Bool} {xs ys : List α}
    (h : xs.find? p = none) : (xs ++ ys).find? p = ys.find? p := by
  rw [List.find?_append, h, Option.none_or]

/-- `find?` over an append whose left part already hits. -/
theorem find?_append_left_some {α : Type} {p : α → Bool} {xs ys : List α} {a : α}
    (h : xs.find? p = some a) : (xs ++ ys).find? p = some a := by
  rw [List.find?_append, h]
  rfl

/-! ### Frame lemmas: which tables each helper leaves untouched -/

theorem get_or_create_ingredient_frame (db : DB) (i : Ingredient) :
    ((get_or_create_ingredient db i).1).recipes = db.recipes ∧
    ((get_or_create_ingredient db i).1).nextRecipeId = db.nextRecipeId ∧
    ((get_or_create_ingredient db i).1).instructions = db.instructions ∧
    ((get_or_create_ingredient db i).1).nextInstructionId = db.nextInstructionId ∧
    ((get_or_create_ingredient db i).1).tags = db.tags ∧
    ((get_or_create_ingredient db i).1).nextTagId = db.nextTagId ∧
    ((get_or_create_ingredient db i).1).recipe_ingredients = db.recipe_ingredients ∧
    ((get_or_create_ingredient db i).1).recipe_tags = db.recipe_tags := by
  unfold get_or_create_ingredient
  split <;> simp

theorem get_or_create_tag_frame (db : DB) (t : Tag) :
    ((get_or_create_tag db t).1).recipes = db.recipes ∧
    ((get_or_create_tag db t).1).nextRecipeId = db.nextRecipeId ∧
    ((get_or_create_tag db t).1).instructions = db.instructions ∧
    ((get_or_create_tag db t).1).nextInstructionId = db.nextInstructionId ∧
    ((get_or_create_tag db t).1).ingredients = db.ingredients ∧
    ((get_or_create_tag db t).1).nextIngredientId = db.nextIngredientId ∧
    ((get_or_create_tag db t).1).recipe_ingredients = db.recipe_ingredients ∧
    ((get_or_create_tag db t).1).recipe_tags = db.recipe_tags := by
  unfold get_or_create_tag
  split <;> simp

theorem insertInstructions_frame (rid : Nat) (l : List (Option Instruction)) :
    ∀ db : DB,
      ((insertInstructions db rid l).1).recipes = db.recipes ∧
      ((insertInstructions db rid l).1).nextRecipeId = db.nextRecipeId ∧
      ((insertInstructions db rid l).1).ingredients = db.ingredients ∧
      ((insertInstructions db rid l).1).nextIngredientId = db.nextIngredientId ∧
      ((insertInstructions db rid l).1).tags = db.tags ∧
      ((insertInstructions db rid l).1).nextTagId = db.nextTagId ∧
      ((insertInstructions db rid l).1).recipe_ingredients = db.recipe_ingredients ∧
      ((insertInstructions db rid l).1).recipe_tags = db.recipe_tags := by
  induction l with
  | nil => intro db; simp [insertInstructions]
  | cons x rest ih =>
      intro db
      cases x with
      | none => simp [insertInstructions]
      | some i => simpa [insertInstructions] using ih _

theorem insertIngredients_frame (rid : Nat) (l : List (Option RecipeIngredient)) :
    ∀ db : DB,
      ((insertIngredients db rid l).1).recipes = db.recipes ∧
      ((insertIngredients db rid l).1).nextRecipeId = db.nextRecipeId ∧
      ((insertIngredients db rid l).1).instructions = db.instructions ∧
      ((insertIngredients db rid l).1).nextInstructionId = db.nextInstructionId ∧
      ((insertIngredients db rid l).1).tags = db.tags ∧
      ((insertIngredients db rid l).1).nextTagId = db.nextTagId ∧
      ((insertIngredients db rid l).1).recipe_tags = db.recipe_tags := by
  induction l with
  | nil => intro db; simp [insertIngredients]
  | cons x rest ih =>
      intro db
      cases x with
      | none => simp [insertIngredients]
      | some ri =>
          rcases hg : get_or_create_ingredient db ri.ingredient with ⟨dbg, iid⟩
          obtain ⟨h1, h2, h3, h4, h5, h6, -, h8⟩ :=
            get_or_create_ingredient_frame db ri.ingredient
          rw [hg] at h1 h2 h3 h4 h5 h6 h8
          simp only at h1 h2 h3 h4 h5 h6 h8
          simp only [insertIngredients, hg]
          by_cases hc :
              (dbg.recipe_ingredients.any
                (fun l => l.recipe_id == rid && l.ingredient_id == iid)) = true
          · simp_all
          · simp only [hc, if_false, Bool.false_eq_true]
            simpa [h1, h2, h3, h4, h5, h6, h8] using
              ih { dbg with
                     recipe_ingredients :=
                       dbg.recipe_ingredients ++ [⟨rid, iid, ri.quantity, ri.unit.text⟩] }

theorem insertTags_frame (rid : Nat) (l : List (Option Tag)) :
    ∀ db : DB,
      ((insertTags db rid l).1).recipes = db.recipes ∧
      ((insertTags db rid l).1).nextRecipeId = db.nextRecipeId ∧
      ((insertTags db rid l).1).instructions = db.instructions ∧
      ((insertTags db rid l).1).nextInstructionId = db.nextInstructionId ∧
      ((insertTags db rid l).1).ingredients = db.ingredients ∧
      ((insertTags db rid l).1).nextIngredientId = db.nextIngredientId ∧
      ((insertTags db rid l).1).recipe_ingredients = db.recipe_ingredients := by
  induction l with
  | nil => intro db; simp [insertTags]
  | cons x rest ih =>
      intro db
      cases x with
      | none => simp [insertTags]
      | some t =>
          rcases hg : get_or_create_tag db t with ⟨dbg, tid⟩
          obtain ⟨h1, h2, h3, h4, h5, h6, h7, -⟩ := get_or_create_tag_frame db t
          rw [hg] at h1 h2 h3 h4 h5 h6 h7
          simp only at h1 h2 h3 h4 h5 h6 h7
          simp only [insertTags, hg]
          by_cases hc :
              (dbg.recipe_tags.any (fun l => l.recipe_id == rid && l.tag_id == tid)) = true
          · simp_all
          · simp only [hc, if_false, Bool.false_eq_true]
            simpa [h1, h2, h3, h4, h5, h6, h7] using
              ih { dbg with recipe_tags := dbg.recipe_tags ++ [⟨rid, tid⟩] }

/-- `runDetails` never touches the `recipes` table or its id counter. -/
theorem runDetails_frame (db : DB) (rid : Nat) (r : Recipe) :
    ((runDetails db rid r).1).recipes = db.recipes ∧
    ((runDetails db rid r).1).nextRecipeId = db.nextRecipeId := by
  rcases hI : insertInstructions db rid r.instructions with ⟨db2, eI⟩
  obtain ⟨i1, i2, -⟩ := insertInstructions_frame rid r.instructions db
  rw [hI] at i1 i2
  simp only at i1 i2
  cases eI with
  | some e => simp [runDetails, hI, i1, i2]
  | none =>
      rcases hG : insertIngredients db2 rid r.ingredients with ⟨db3, eG⟩
      obtain ⟨g1, g2, -⟩ := insertIngredients_frame rid r.ingredients db2
      rw [hG] at g1 g2
      simp only at g1 g2
      cases eG with
      | some e => simp [runDetails, hI, hG, i1, i2, g1, g2]
      | none =>
          obtain ⟨t1, t2, -⟩ := insertTags_frame rid r.tags db3
          simp [runDetails, hI, hG, t1, g1, i1, t2, g2, i2]

/-! ### What `insert_recipe` does to the `recipes` table -/

/-- The row inserted by the `group_id is None` branch, after the self-link
`UPDATE`. -/
def selfRow (db : DB) (r : Recipe) : RecipeRow :=
  ⟨db.nextRecipeId, some db.nextRecipeId, 1, r.title, r.description, r.comments,
   r.prep_time, r.cook_time, r.servings⟩

/-- The row inserted by the `group_id` present branch. -/
def groupRow (db : DB) (r : Recipe) (g : Nat) : RecipeRow :=
  ⟨db.nextRecipeId, some g, maxVersion db g + 1, r.title, r.description, r.comments,
   r.prep_time, r.cook_time, r.servings⟩

theorem insertScalar_some (db : DB) (r : Recipe) (g : Nat) :
    insertScalar db r (some g)
      = ({ db with recipes := db.recipes ++ [groupRow db r g],
                   nextRecipeId := db.nextRecipeId + 1 },
         db.nextRecipeId, maxVersion db g + 1) := by
  simp [insertScalar, groupRow]

theorem insertScalar_none (db : DB) (r : Recipe) (hb : recipesBound db) :
    insertScalar db r none
      = ({ db with recipes := db.recipes ++ [selfRow db r],
                   nextRecipeId := db.nextRecipeId + 1 },
         db.nextRecipeId, 1) := by
  have hmap :
      (db.recipes.map
          (fun rw => if rw.id = db.nextRecipeId
                     then { rw with group := some db.nextRecipeId } else rw))
        = db.recipes := by
    apply map_id_of_mem
    intro a ha
    have hne : a.id ≠ db.nextRecipeId := Nat.ne_of_lt (hb a ha)
    simp [hne]
  simp [insertScalar, List.map_append, selfRow, hmap]

/-- Full effect of `insert_recipe` on the `recipes` table and its counter,
independently of whether the detail statements succeed: the scalar row is
already inserted when they run. -/
theorem insert_recipe_recipes (db : DB) (r : Recipe) (g : Option Nat)
    (hb : recipesBound db) :
    ((insert_recipe db r g).1).recipes
        = db.recipes ++ [(match g with
                          | none => selfRow db r
                          | some gg => groupRow db r gg)] ∧
    ((insert_recipe db r g).1).nextRecipeId = db.nextRecipeId + 1 ∧
    (∀ v, (insert_recipe db r g).2 = Except.ok v → v = db.nextRecipeId) := by
  have hs :
      (insertScalar db r g).1.recipes
          = db.recipes ++ [(match g with
                            | none => selfRow db r
                            | some gg => groupRow db r gg)] ∧
      (insertScalar db r g).1.nextRecipeId = db.nextRecipeId + 1 ∧
      (insertScalar db r g).2.1 = db.nextRecipeId := by
    cases g with
    | none => rw [insertScalar_none db r hb]; simp
    | some gg => rw [insertScalar_some db r gg]; simp
  obtain ⟨hs1, hs2, hs3⟩ := hs
  obtain ⟨hd1, hd2⟩ := runDetails_frame (insertScalar db r g).1 (insertScalar db r g).2.1 r
  simp only [insert_recipe]
  rcases hR : runDetails (insertScalar db r g).1 (insertScalar db r g).2.1 r with ⟨db4, e⟩
  rw [hR] at hd1 hd2
  simp only at hd1 hd2
  cases e with
  | some e => simp [hd1, hd2, hs1, hs2]
  | none => simp [hd1, hd2, hs1, hs2, hs3]

/-! ### Reading versions and groups back -/

theorem versionOf_append_new (db : DB) (rows : List RecipeRow) (row : RecipeRow)
    (hrec : db.recipes = rows ++ [row]) (h : ∀ a ∈ rows, a.id ≠ row.id) :
    versionOf db row.id = some row.version ∧ groupOf db row.id = some row.group := by
  have hnone : rows.find? (fun a => a.id == row.id) = none := by
    rw [List.find?_eq_none]
    intro a ha
    simp [h a ha]
  have : db.recipes.find? (fun a => a.id == row.id) = some row := by
    rw [hrec, find?_append_left_none hnone]
    simp [List.find?]
  simp [versionOf, groupOf, this]

theorem versionOf_append_old (db db' : DB) (rows : List RecipeRow)
    (hrec : db'.recipes = db.recipes ++ rows) (rid : Nat) :
    (∀ v, versionOf db rid = some v → versionOf db' rid = some v) ∧
    (∀ og, groupOf db rid = some og → groupOf db' rid = some og) := by
  constructor
  · intro v hv
    unfold versionOf at hv ⊢
    rcases hf : db.recipes.find? (fun a => a.id == rid) with - | a
    · rw [hf] at hv; simp at hv
    · rw [hf] at hv
      rw [hrec, find?_append_left_some hf]
      exact hv
  · intro og hg
    unfold groupOf at hg ⊢
    rcases hf : db.recipes.find? (fun a => a.id == rid) with - | a
    · rw [hf] at hg; simp at hg
    · rw [hf] at hg
      rw [hrec, find?_append_left_some hf]
      exact hg

/-! ### `MAX(version)` facts -/

theorem maxVersionRows_append (rows : List RecipeRow) (row : RecipeRow) (g : Nat)
    (h : row.group = some g) :
    maxVersionRows (rows ++ [row]) g = max (maxVersionRows rows g) row.version := by
  unfold maxVersionRows
  rw [List.filter_append, List.map_append, List.foldl_append]
  simp [List.filter, h]

theorem maxVersionRows_append_other (rows : List RecipeRow) (row : RecipeRow) (g : Nat)
    (h : row.group ≠ some g) :
    maxVersionRows (rows ++ [row]) g = maxVersionRows rows g := by
  unfold maxVersionRows
  rw [List.filter_append, List.map_append, List.foldl_append]
  have : (row.group == some g) = false := by
    simp [h]
  simp [List.filter, this]

/-- Everything one `insert_recipe` call with a present `group_id` guarantees
about versions and the recipes table, whether or not its detail statements
succeed. -/
theorem insert_some_spec (db : DB) (r : Recipe) (g : Nat) (hb : recipesBound db) :
    recipesBound (insert_recipe db r (some g)).1 ∧
    ((insert_recipe db r (some g)).1).nextRecipeId = db.nextRecipeId + 1 ∧
    maxVersion (insert_recipe db r (some g)).1 g = maxVersion db g + 1 ∧
    versionOf (insert_recipe db r (some g)).1 db.nextRecipeId = some (maxVersion db g + 1) ∧
    groupOf (insert_recipe db r (some g)).1 db.nextRecipeId = some (some g) ∧
    (∀ rid v, versionOf db rid = some v →
        versionOf (insert_recipe db r (some g)).1 rid = some v) ∧
    (∀ v, (insert_recipe db r (some g)).2 = Except.ok v → v = db.nextRecipeId) := by
  obtain ⟨hrec, hnext, hok⟩ := insert_recipe_recipes db r (some g) hb
  simp only at hrec
  have hidne : ∀ a ∈ db.recipes, a.id ≠ (groupRow db r g).id := by
    intro a ha
    have := hb a ha
    simp only [groupRow]
    omega
  refine ⟨?_, hnext, ?_, ?_, ?_, ?_, hok⟩
  · intro row hrow
    rw [hrec] at hrow
    rw [hnext]
    rcases List.mem_append.mp hrow with hl | hr
    · exact Nat.lt_succ_of_lt (hb row hl)
    · simp only [List.mem_singleton] at hr
      subst hr
      simp [groupRow]
  · show maxVersionRows _ g = _
    rw [hrec, maxVersionRows_append db.recipes (groupRow db r g) g (by simp [groupRow])]
    simp only [groupRow]
    exact Nat.max_eq_right (Nat.le_succ _)
  · have := (versionOf_append_new (insert_recipe db r (some g)).1 db.recipes
        (groupRow db r g) hrec hidne).1
    simpa [groupRow] using this
  · have := (versionOf_append_new (insert_recipe db r (some g)).1 db.recipes
        (groupRow db r g) hrec hidne).2
    simpa [groupRow] using this
  · intro rid v
    exact (versionOf_append_old db (insert_recipe db r (some g)).1 [groupRow db r g] hrec rid).1 v

/-- Everything one `insert_recipe` call with `group_id = None` guarantees:
version 1, self-linked group, identity = the counter value. -/
theorem insert_none_spec (db : DB) (r : Recipe) (hb : recipesBound db) :
    recipesBound (insert_recipe db r none).1 ∧
    ((insert_recipe db r none).1).nextRecipeId = db.nextRecipeId + 1 ∧
    maxVersion (insert_recipe db r none).1 db.nextRecipeId
        = max (maxVersion db db.nextRecipeId) 1 ∧
    versionOf (insert_recipe db r none).1 db.nextRecipeId = some 1 ∧
    groupOf (insert_recipe db r none).1 db.nextRecipeId = some (some db.nextRecipeId) ∧
    (∀ v, (insert_recipe db r none).2 = Except.ok v → v = db.nextRecipeId) := by
  obtain ⟨hrec, hnext, hok⟩ := insert_recipe_recipes db r none hb
  simp only at hrec
  have hidne : ∀ a ∈ db.recipes, a.id ≠ (selfRow db r).id := by
    intro a ha
    have := hb a ha
    simp only [selfRow]
    omega
  refine ⟨?_, hnext, ?_, ?_, ?_, hok⟩
  · intro row hrow
    rw [hrec] at hrow
    rw [hnext]
    rcases List.mem_append.mp hrow with hl | hr
    · exact Nat.lt_succ_of_lt (hb row hl)
    · simp only [List.mem_singleton] at hr
      subst hr
      simp [selfRow]
  · show maxVersionRows _ _ = _
    rw [hrec, maxVersionRows_append db.recipes (selfRow db r) db.nextRecipeId
          (by simp [selfRow])]
    simp [selfRow, maxVersion]
  · have := (versionOf_append_new (insert_recipe db r none).1 db.recipes
        (selfRow db r) hrec hidne).1
    simpa [selfRow] using this
  · have := (versionOf_append_new (insert_recipe db r none).1 db.recipes
        (selfRow db r) hrec hidne).2
    simpa [selfRow] using this

theorem maxVersion_eq_zero (db : DB) (g : Nat)
    (h : ∀ row ∈ db.recipes, row.group ≠ some g) : maxVersion db g = 0 := by
  unfold maxVersion maxVersionRows
  have : db.recipes.filter (fun row => row.group == some g) = [] := by
    rw [List.filter_eq_nil_iff]
    intro a ha
    simp [h a ha]
  rw [this]
  rfl

/-- Invariant induction over a chain of same-group calls that all succeed:
versions already stored are preserved, and the k-th call of the chain writes
(and returns the identity of) a row whose version is `m + k + 1`, where `m`
is the group's maximum version before the chain. -/
theorem chain_ok_spec (g : Nat) (rs : List Recipe) :
    ∀ (db : DB) (m : Nat), recipesBound db → maxVersion db g = m →
      ((chain db g rs).2).all isOkB = true →
      (∀ rid v, versionOf db rid = some v → versionOf (chain db g rs).1 rid = some v) ∧
      (∀ k, k < rs.length → ∃ rid,
          ((chain db g rs).2).get? k = some (Except.ok rid) ∧
          versionOf (chain db g rs).1 rid = some (m + k + 1)) := by
  induction rs with
  | nil =>
      intro db m hb hm hok
      refine ⟨fun rid v hv => ?_, fun k hk => absurd hk (by simp)⟩
      simpa [chain] using hv
  | cons r rest ih =>
      intro db m hb hm hok
      rcases hstep : insert_recipe db r (some g) with ⟨db1, res⟩
      obtain ⟨sb, snext, smax, sver, sgrp, spres, sokv⟩ := insert_some_spec db r g hb
      rw [hstep] at sb snext smax sver sgrp spres sokv
      simp only at sb snext smax sver sgrp spres sokv
      rw [hm] at smax sver
      simp only [chain, hstep, List.all_cons, Bool.and_eq_true] at hok ⊢
      obtain ⟨hokhead, hokrest⟩ := hok
      obtain ⟨rid0, hres⟩ : ∃ rid0, res = Except.ok rid0 := by
        cases res with
        | ok v => exact ⟨v, rfl⟩
        | error e => simp [isOkB] at hokhead
      subst hres
      have hrid0 : rid0 = db.nextRecipeId := sokv rid0 rfl
      subst hrid0
      obtain ⟨ippres, ipidx⟩ := ih db1 (m + 1) sb smax hokrest
      refine ⟨?_, ?_⟩
      · intro rid v hv
        exact ippres rid v (spres rid v hv)
      · intro k hk
        cases k with
        | zero =>
            refine ⟨db.nextRecipeId, by simp, ?_⟩
            simpa using ippres db.nextRecipeId (m + 1) sver
        | succ k =>
            obtain ⟨rid, h1, h2⟩ := ipidx k (by simpa using hk)
            refine ⟨rid, by simpa using h1, ?_⟩
            rw [show m + 1 + k + 1 = m + (k + 1) + 1 by omega] at h2
            exact h2

/-- **C1**: when a first `write_revision` call opens a group and every later
call passes back the group id returned by that first call, the version
numbers assigned by the successive calls — read back through each call's
returned recipe identity — are exactly 1, 2, 3, … in call order: the first
call's row carries version 1 and the k-th later call's row carries version
k + 1 (`MAX(version) + 1` with no gaps). -/
theorem chained_write_versions (r0 : Recipe) (rs : List Recipe) (db1 : DB) (g : Nat)
    (h0 : insert_recipe DB.empty r0 none = (db1, Except.ok g))
    (hok : ((chain db1 g rs).2).all isOkB = true) :
    versionOf (chain db1 g rs).1 g = some 1 ∧
    ∀ k, k < rs.length → ∃ rid,
      ((chain db1 g rs).2).get? k = some (Except.ok rid) ∧
      versionOf (chain db1 g rs).1 rid = some (k + 2) := by
  have hbE : recipesBound DB.empty := by intro row hrow; cases hrow
  obtain ⟨nb, nnext, nmax, nver, ngrp, nokv⟩ := insert_none_spec DB.empty r0 hbE
  rw [h0] at nb nnext nmax nver ngrp nokv
  simp only at nb nnext nmax nver ngrp nokv
  have hg1 : g = 1 := nokv g rfl
  subst hg1
  have hmax1 : maxVersion db1 1 = 1 := by
    simpa [DB.empty, maxVersion, maxVersionRows] using nmax
  obtain ⟨pres, idx⟩ := chain_ok_spec 1 rs db1 1 nb hmax1 hok
  refine ⟨pres 1 1 nver, ?_⟩
  intro k hk
  obtain ⟨rid, h1, h2⟩ := idx k hk
  refine ⟨rid, h1, ?_⟩
  rw [show 1 + k + 1 = k + 2 by omega] at h2
  exact h2

/-- Concrete recipe used by the C1 witness. -/
def c1rec : Recipe :=
  { title := "T", ingredients := [], instructions := [], tags := [] }

/-- State after the C1 witness's first call. -/
def c1db1 : DB := (insert_recipe DB.empty c1rec none).1

/-- Witness for C1: a chain of three calls (one opening call, two chained
calls) in which the versions 1, 2, 3 are actually produced. -/
theorem chained_write_versions_witness :
    insert_recipe DB.empty c1rec none = (c1db1, Except.ok 1) ∧
    ((chain c1db1 1 [c1rec, c1rec]).2).all isOkB = true ∧
    (versionOf (chain c1db1 1 [c1rec, c1rec]).1 1 = some 1 ∧
     ∀ k, k < ([c1rec, c1rec] : List Recipe).length → ∃ rid,
       ((chain c1db1 1 [c1rec, c1rec]).2).get? k = some (Except.ok rid) ∧
       versionOf (chain c1db1 1 [c1rec, c1rec]).1 rid = some (k + 2)) :=
  ⟨rfl, by decide,
   chained_write_versions c1rec [c1rec, c1rec] c1db1 1 rfl (by decide)⟩

/-! ### The Entity Deduplicator is idempotent (C2) -/

/-- A second `get_or_create_ingredient` call with the same name returns the
same identity and leaves the state untouched; afterwards the name has exactly
one row (given the single-writer invariant that it had at most one before). -/
theorem get_or_create_ingredient_stable (db : DB) (i1 i2 : Ingredient)
    (hni : i2.name = i1.name) (hci : countIngredientName db i1.name ≤ 1) :
    get_or_create_ingredient (get_or_create_ingredient db i1).1 i2
        = get_or_create_ingredient db i1 ∧
    countIngredientName (get_or_create_ingredient db i1).1 i1.name = 1 := by
  rcases hf : db.ingredients.find? (fun row => row.name == i1.name) with - | row
  · have hstep : get_or_create_ingredient db i1
        = ({ db with
              ingredients := db.ingredients
                ++ [(⟨db.nextIngredientId, i1.name,
                      i1.category.map IngredientCategory.text⟩ : IngredientRow)],
              nextIngredientId := db.nextIngredientId + 1 },
           db.nextIngredientId) := by
      simp [get_or_create_ingredient, hf]
    have hcount0 : db.ingredients.countP (fun row => row.name == i1.name) = 0 := by
      rw [List.countP_eq_zero]
      exact List.find?_eq_none.mp hf
    have hfind2 :
        List.find? (fun row => row.name == i2.name)
            (db.ingredients
              ++ [(⟨db.nextIngredientId, i1.name,
                    i1.category.map IngredientCategory.text⟩ : IngredientRow)])
          = some (⟨db.nextIngredientId, i1.name,
                   i1.category.map IngredientCategory.text⟩ : IngredientRow) := by
      simp only [hni]
      rw [find?_append_left_none hf]
      simp [List.find?]
    constructor
    · rw [hstep]
      simp only [get_or_create_ingredient]
      rw [hfind2]
    · rw [hstep]
      unfold countIngredientName
      simp only [List.countP_append, hcount0]
      simp [List.countP, List.countP.go]
  · have hstep : get_or_create_ingredient db i1 = (db, row.id) := by
      simp [get_or_create_ingredient, hf]
    have hmem : row ∈ db.ingredients := List.mem_of_find?_eq_some hf
    have hp : (row.name == i1.name) = true :=
      @List.find?_some IngredientRow (fun r => r.name == i1.name) row db.ingredients hf
    constructor
    · rw [hstep]
      have hfind2 : db.ingredients.find? (fun r => r.name == i2.name) = some row := by
        simp only [hni]
        exact hf
      simp only [get_or_create_ingredient]
      rw [hfind2]
    · rw [hstep]
      show countIngredientName db i1.name = 1
      have hpos : 0 < countIngredientName db i1.name := by
        unfold countIngredientName
        rw [List.countP_pos_iff]
        exact ⟨row, hmem, hp⟩
      omega

/-- Tag counterpart of `get_or_create_ingredient_stable`. -/
theorem get_or_create_tag_stable (db : DB) (t1 t2 : Tag)
    (hnt : Tag.name t2 = Tag.name t1) (hct : countTagName db (Tag.name t1) ≤ 1) :
    get_or_create_tag (get_or_create_tag db t1).1 t2 = get_or_create_tag db t1 ∧
    countTagName (get_or_create_tag db t1).1 (Tag.name t1) = 1 := by
  rcases hf : db.tags.find? (fun row => row.name == Tag.name t1) with - | row
  · have hstep : get_or_create_tag db t1
        = ({ db with tags := db.tags ++ [(⟨db.nextTagId, Tag.name t1⟩ : TagRow)],
                     nextTagId := db.nextTagId + 1 },
           db.nextTagId) := by
      simp [get_or_create_tag, hf]
    have hcount0 : db.tags.countP (fun row => row.name == Tag.name t1) = 0 := by
      rw [List.countP_eq_zero]
      exact List.find?_eq_none.mp hf
    have hfind2 :
        List.find? (fun row => row.name == Tag.name t2)
            (db.tags ++ [(⟨db.nextTagId, Tag.name t1⟩ : TagRow)])
          = some (⟨db.nextTagId, Tag.name t1⟩ : TagRow) := by
      simp only [hnt]
      rw [find?_append_left_none hf]
      simp [List.find?]
    constructor
    · rw [hstep]
      simp only [get_or_create_tag]
      rw [hfind2]
    · rw [hstep]
      unfold countTagName
      simp only [List.countP_append, hcount0]
      simp [List.countP, List.countP.go]
  · have hstep : get_or_create_tag db t1 = (db, row.id) := by
      simp [get_or_create_tag, hf]
    have hmem : row ∈ db.tags := List.mem_of_find?_eq_some hf
    have hp : (row.name == Tag.name t1) = true :=
      @List.find?_some TagRow (fun r => r.name == Tag.name t1) row db.tags hf
    constructor
    · rw [hstep]
      have hfind2 : db.tags.find? (fun r => r.name == Tag.name t2) = some row := by
        simp only [hnt]
        exact hf
      simp only [get_or_create_tag]
      rw [hfind2]
    · rw [hstep]
      show countTagName db (Tag.name t1) = 1
      have hpos : 0 < countTagName db (Tag.name t1) := by
        unfold countTagName
        rw [List.countP_pos_iff]
        exact ⟨row, hmem, hp⟩
      omega

/-- **C2**: calling the deduplicator twice with the same name returns the same
identity both times (the whole result, state included, is unchanged by the
second call — so no duplicate row is created), and afterwards exactly one row
exists for that name, both for ingredients and for tags. The hypotheses
`≤ 1` say the name was not already duplicated beforehand, which is the
single-writer invariant the lookup-or-create logic maintains. -/
theorem resolve_or_create_idempotent (db : DB) (i1 i2 : Ingredient) (t1 t2 : Tag)
    (hni : i2.name = i1.name) (hnt : Tag.name t2 = Tag.name t1)
    (hci : countIngredientName db i1.name ≤ 1)
    (hct : countTagName db (Tag.name t1) ≤ 1) :
    get_or_create_ingredient (get_or_create_ingredient db i1).1 i2
        = get_or_create_ingredient db i1 ∧
    countIngredientName (get_or_create_ingredient db i1).1 i1.name = 1 ∧
    get_or_create_tag (get_or_create_tag db t1).1 t2 = get_or_create_tag db t1 ∧
    countTagName (get_or_create_tag db t1).1 (Tag.name t1) = 1 := by
  obtain ⟨hi1, hi2⟩ := get_or_create_ingredient_stable db i1 i2 hni hci
  obtain ⟨ht1, ht2⟩ := get_or_create_tag_stable db t1 t2 hnt hct
  exact ⟨hi1, hi2, ht1, ht2⟩

/-- Witness for C2 at a concrete state: the second lookup of "Flour" (with a
different category on the input, which must not matter) and of tag
"Breakfast" return the stored identities and the state is unchanged. -/
theorem resolve_or_create_idempotent_witness :
    (⟨"Flour", some IngredientCategory.spice⟩ : Ingredient).name
        = (⟨"Flour", none⟩ : Ingredient).name ∧
    Tag.name (Tag.mk "Breakfast" none) = Tag.name (Tag.mk "Breakfast" none) ∧
    countIngredientName DB.empty (Ingredient.name ⟨"Flour", none⟩) ≤ 1 ∧
    countTagName DB.empty (Tag.name (Tag.mk "Breakfast" none)) ≤ 1 ∧
    (get_or_create_ingredient
        (get_or_create_ingredient DB.empty ⟨"Flour", none⟩).1
        ⟨"Flour", some IngredientCategory.spice⟩
      = get_or_create_ingredient DB.empty ⟨"Flour", none⟩ ∧
     countIngredientName (get_or_create_ingredient DB.empty ⟨"Flour", none⟩).1
        (Ingredient.name ⟨"Flour", none⟩) = 1 ∧
     get_or_create_tag (get_or_create_tag DB.empty (Tag.mk "Breakfast" none)).1
        (Tag.mk "Breakfast" none)
      = get_or_create_tag DB.empty (Tag.mk "Breakfast" none) ∧
     countTagName (get_or_create_tag DB.empty (Tag.mk "Breakfast" none)).1
        (Tag.name (Tag.mk "Breakfast" none)) = 1) :=
  ⟨rfl, rfl, by decide, by decide,
   resolve_or_create_idempotent DB.empty ⟨"Flour", none⟩
     ⟨"Flour", some IngredientCategory.spice⟩ (Tag.mk "Breakfast" none)
     (Tag.mk "Breakfast" none) rfl rfl (by decide) (by decide)⟩

/-! ### C3: a `group_id = None` call opens a self-linked group -/

/-- **C3**: a `write_revision` call with `group_id` absent inserts the recipe
row with version 1 and, after the identity is assigned, sets the row's group
reference equal to its own identity (self-link); on success precisely that
identity is the returned value, so the one returned number is both the
recipe identity and the group id. -/
theorem new_group_self_link (db : DB) (r : Recipe) (hb : recipesBound db) :
    versionOf (insert_recipe db r none).1 db.nextRecipeId = some 1 ∧
    groupOf (insert_recipe db r none).1 db.nextRecipeId = some (some db.nextRecipeId) ∧
    (∀ v, (insert_recipe db r none).2 = Except.ok v → v = db.nextRecipeId) := by
  obtain ⟨-, -, -, h4, h5, h6⟩ := insert_none_spec db r hb
  exact ⟨h4, h5, h6⟩

/-- Concrete recipe used by the C3 witness. -/
def c3rec : Recipe :=
  { title := "Pancakes", description := some "Fluffy breakfast pancakes.",
    prep_time := some 10, cook_time := some 15, servings := some 4,
    ingredients := [], instructions := [], tags := [] }

/-- Witness for C3: on the fresh database the new row gets id 1, version 1
and group 1 = its own id. -/
theorem new_group_self_link_witness :
    recipesBound DB.empty ∧
    (versionOf (insert_recipe DB.empty c3rec none).1 DB.empty.nextRecipeId = some 1 ∧
     groupOf (insert_recipe DB.empty c3rec none).1 DB.empty.nextRecipeId
        = some (some DB.empty.nextRecipeId) ∧
     (∀ v, (insert_recipe DB.empty c3rec none).2 = Except.ok v → v = DB.empty.nextRecipeId)) :=
  ⟨by decide, new_group_self_link DB.empty c3rec (by decide)⟩

/-! ### C4: a duplicated ingredient name fails and leaves partial rows -/

/-- A revision listing the same ingredient name "Flour" twice. -/
def c4rec : Recipe :=
  { title := "Pancakes",
    ingredients :=
      [some ⟨⟨"Flour", none⟩, 200, Unit.gram⟩,
       some ⟨⟨"Flour", none⟩, 100, Unit.gram⟩],
    instructions := [some ⟨1, "Mix"⟩],
    tags := [] }

/-- **C4**: writing `c4rec` makes the second `recipe_ingredients` insert hit
the `(recipe_id, ingredient_id)` primary key, raising `IntegrityError` — but
the connection is NOT rolled back by the code: the scalar recipe row, the
instruction row, the ingredient row and the first link row all remain in the
state, so the revision IS left partially visible, contradicting the claimed
full rollback. -/
theorem duplicate_ingredient_partial_rows :
    (insert_recipe DB.empty c4rec none).2 = Except.error DBError.integrityError ∧
    ((insert_recipe DB.empty c4rec none).1).recipes
        = [⟨1, some 1, 1, "Pancakes", none, none, none, none, none⟩] ∧
    ((insert_recipe DB.empty c4rec none).1).instructions = [⟨1, 1, 1, "Mix"⟩] ∧
    ((insert_recipe DB.empty c4rec none).1).ingredients = [⟨1, "Flour", none⟩] ∧
    ((insert_recipe DB.empty c4rec none).1).recipe_ingredients = [⟨1, 1, 200, "g"⟩] := by
  decide

/-! ### C5: cascade delete of one revision (modelled from the spec) -/

/-- Modelled from the spec: the source contains no operation that deletes a
recipe revision — only the DDL in `create_tables` declares what a delete must
do. This is the engine-level `DELETE FROM recipes WHERE id = ?` together with
the three `ON DELETE CASCADE` foreign keys that `create_tables` declares from
`instructions`, `recipe_ingredients` and `recipe_tags` into `recipes`. The
shared `ingredients` and `tags` tables have no foreign key into `recipes`
and are therefore untouched. -/
def delete_recipe (db : DB) (rid : Nat) : DB :=
  { db with
    recipes := db.recipes.filter (fun row => !(row.id == rid)),
    instructions := db.instructions.filter (fun row => !(row.recipe_id == rid)),
    recipe_ingredients := db.recipe_ingredients.filter (fun row => !(row.recipe_id == rid)),
    recipe_tags := db.recipe_tags.filter (fun row => !(row.recipe_id == rid)) }

/-- **C5**: deleting a revision removes its recipe row, all of its
instruction rows and all of its `recipe_ingredients`/`recipe_tags` link rows;
every detail row of any other revision survives, and the shared
`ingredients` and `tags` tables are exactly unchanged. -/
theorem delete_recipe_cascades_frame (db : DB) (rid : Nat) :
    ((delete_recipe db rid).recipes.filter (fun row => row.id == rid)) = [] ∧
    ((delete_recipe db rid).instructions.filter (fun row => row.recipe_id == rid)) = [] ∧
    ((delete_recipe db rid).recipe_ingredients.filter
        (fun row => row.recipe_id == rid)) = [] ∧
    ((delete_recipe db rid).recipe_tags.filter (fun row => row.recipe_id == rid)) = [] ∧
    (∀ row ∈ db.instructions, row.recipe_id ≠ rid →
        row ∈ (delete_recipe db rid).instructions) ∧
    (∀ row ∈ db.recipe_ingredients, row.recipe_id ≠ rid →
        row ∈ (delete_recipe db rid).recipe_ingredients) ∧
    (∀ row ∈ db.recipe_tags, row.recipe_id ≠ rid →
        row ∈ (delete_recipe db rid).recipe_tags) ∧
    (delete_recipe db rid).ingredients = db.ingredients ∧
    (delete_recipe db rid).tags = db.tags := by
  refine ⟨?_, ?_, ?_, ?_, ?_, ?_, ?_, rfl, rfl⟩
  · rw [List.filter_eq_nil_iff]
    intro a ha
    have := (List.mem_filter.mp ha).2
    simp at this
    simp [this]
  · rw [List.filter_eq_nil_iff]
    intro a ha
    have := (List.mem_filter.mp ha).2
    simp at this
    simp [this]
  · rw [List.filter_eq_nil_iff]
    intro a ha
    have := (List.mem_filter.mp ha).2
    simp at this
    simp [this]
  · rw [List.filter_eq_nil_iff]
    intro a ha
    have := (List.mem_filter.mp ha).2
    simp at this
    simp [this]
  · intro row hrow hne
    exact List.mem_filter.mpr ⟨hrow, by simp [hne]⟩
  · intro row hrow hne
    exact List.mem_filter.mpr ⟨hrow, by simp [hne]⟩
  · intro row hrow hne
    exact List.mem_filter.mpr ⟨hrow, by simp [hne]⟩

/-- Database used by the C5 witness: two revisions written, then revision 1
is deleted. -/
def c5db : DB := (insert_recipe (insert_recipe DB.empty c4rec none).1 c3rec (some 1)).1

/-- Witness for C5 at a populated concrete state. -/
theorem delete_recipe_cascades_frame_witness :
    ((delete_recipe c5db 1).recipes.filter (fun row => row.id == 1)) = [] ∧
    ((delete_recipe c5db 1).instructions.filter (fun row => row.recipe_id == 1)) = [] ∧
    ((delete_recipe c5db 1).recipe_ingredients.filter
        (fun row => row.recipe_id == 1)) = [] ∧
    ((delete_recipe c5db 1).recipe_tags.filter (fun row => row.recipe_id == 1)) = [] ∧
    (∀ row ∈ c5db.instructions, row.recipe_id ≠ 1 →
        row ∈ (delete_recipe c5db 1).instructions) ∧
    (∀ row ∈ c5db.recipe_ingredients, row.recipe_id ≠ 1 →
        row ∈ (delete_recipe c5db 1).recipe_ingredients) ∧
    (∀ row ∈ c5db.recipe_tags, row.recipe_id ≠ 1 →
        row ∈ (delete_recipe c5db 1).recipe_tags) ∧
    (delete_recipe c5db 1).ingredients = c5db.ingredients ∧
    (delete_recipe c5db 1).tags = c5db.tags :=
  delete_recipe_cascades_frame c5db 1

/-! ### C6: what `insert_recipe` actually returns -/

/-- Trivial recipe used by the C6 theorems. -/
def c6rec : Recipe := { title := "T", ingredients := [], instructions := [], tags := [] }

/-- State holding one revision (id 1, group 1, version 1). -/
def c6dbA : DB := (insert_recipe DB.empty c6rec none).1

/-- Handcrafted state whose single revision of group 1 already has version 4. -/
def c6dbB : DB :=
  { DB.empty with
      recipes := [⟨1, some 1, 4, "T", none, none, none, none, none⟩],
      nextRecipeId := 2 }

/-- **C6 (counterexample)**: `insert_recipe` returns one number, the recipe
identity, not the triple `(recipe_identity, group_id, version)`: two calls
that return exactly the same value (`Except.ok 2`) write rows with different
versions (2 resp. 5), so the version is not part of the return value; and the
returned 2 differs from the group id 1 stored in the row, so neither is the
group id. -/
theorem return_value_not_triple :
    (insert_recipe c6dbA c6rec (some 1)).2 = Except.ok 2 ∧
    (insert_recipe c6dbB c6rec (some 1)).2 = Except.ok 2 ∧
    versionOf (insert_recipe c6dbA c6rec (some 1)).1 2 = some 2 ∧
    versionOf (insert_recipe c6dbB c6rec (some 1)).1 2 = some 5 ∧
    groupOf (insert_recipe c6dbA c6rec (some 1)).1 2 = some (some 1) ∧
    (2 : Nat) ≠ 1 := by
  decide

/-- **C6 (amended)**: on success `insert_recipe` returns exactly the assigned
recipe identity (the AUTOINCREMENT counter value); the group identifier and
the computed version number are recorded in the inserted row — in the
new-group case the returned identity doubles as the group id — but they are
not part of the return value. -/
theorem insert_returns_identity_only (db : DB) (r : Recipe) (g : Option Nat) (v : Nat)
    (hb : recipesBound db)
    (hok : (insert_recipe db r g).2 = Except.ok v) :
    v = db.nextRecipeId ∧
    versionOf (insert_recipe db r g).1 v
        = some (Option.elim g 1 (fun gg => maxVersion db gg + 1)) ∧
    groupOf (insert_recipe db r g).1 v = some (some (g.getD db.nextRecipeId)) := by
  cases g with
  | none =>
      obtain ⟨-, -, -, h4, h5, h6⟩ := insert_none_spec db r hb
      have hv := h6 v hok
      subst hv
      exact ⟨rfl, by simpa using h4, by simpa using h5⟩
  | some gg =>
      obtain ⟨-, -, -, h4, h5, -, h7⟩ := insert_some_spec db r gg hb
      have hv := h7 v hok
      subst hv
      exact ⟨rfl, by simpa using h4, by simpa using h5⟩

/-- Witness for the amended C6 at a concrete chained call: the call on
`c6dbA` against group 1 returns identity 2, and row 2 carries group 1 and
version 2. -/
theorem insert_returns_identity_only_witness :
    recipesBound c6dbA ∧
    (insert_recipe c6dbA c6rec (some 1)).2 = Except.ok 2 ∧
    (2 = c6dbA.nextRecipeId ∧
     versionOf (insert_recipe c6dbA c6rec (some 1)).1 2
        = some (Option.elim (some 1) 1 (fun gg => maxVersion c6dbA gg + 1)) ∧
     groupOf (insert_recipe c6dbA c6rec (some 1)).1 2
        = some (some (Option.getD (some 1) c6dbA.nextRecipeId))) :=
  ⟨by decide, by decide,
   insert_returns_identity_only c6dbA c6rec (some 1) 2 (by decide) (by decide)⟩

/-! ### C7: writing against a non-existent group is not rejected -/

/-- Success of the instructions loop when no entry is `None`. -/
theorem insertInstructions_ok (rid : Nat) (l : List (Option Instruction))
    (h : none ∉ l) : ∀ db : DB, (insertInstructions db rid l).2 = none := by
  induction l with
  | nil => intro db; simp [insertInstructions]
  | cons x rest ih =>
      intro db
      cases x with
      | none => exact absurd (List.mem_cons_self none rest) h
      | some i =>
          simp only [insertInstructions]
          exact ih (fun hc => h (List.mem_cons_of_mem _ hc)) _

/-- Trivial recipe used by the C7 theorems. -/
def c7rec : Recipe := { title := "Ghost", ingredients := [], instructions := [], tags := [] }

/-- **C7 (counterexample)**: on the fresh database — which contains no group
99 at all — a `write_revision` against `group_id = 99` is not surfaced as any
error: the call succeeds, returns identity 1, and stores the revision under
group 99 with version 1. -/
theorem missing_group_write_succeeds :
    (insert_recipe DB.empty c7rec (some 99)).2 = Except.ok 1 ∧
    versionOf (insert_recipe DB.empty c7rec (some 99)).1 1 = some 1 ∧
    groupOf (insert_recipe DB.empty c7rec (some 99)).1 1 = some (some 99) := by
  decide

/-- **C7 (amended)**: a call whose `group_id` references no existing group is
not validated or rejected: `MAX(version)` over the empty group is `NULL`,
`or 0` turns it into 0, and the revision is inserted under that group id with
version 1; when the recipe's own detail rows violate nothing (here: no `None`
instruction entries, no ingredient or tag links), the call even commits and
returns the fresh identity. -/
theorem missing_group_not_rejected (db : DB) (r : Recipe) (g : Nat)
    (hb : recipesBound db)
    (hg : ∀ row ∈ db.recipes, row.group ≠ some g)
    (hins : none ∉ r.instructions)
    (hing : r.ingredients = []) (htag : r.tags = []) :
    (insert_recipe db r (some g)).2 = Except.ok db.nextRecipeId ∧
    versionOf (insert_recipe db r (some g)).1 db.nextRecipeId = some 1 ∧
    groupOf (insert_recipe db r (some g)).1 db.nextRecipeId = some (some g) := by
  have hmax : maxVersion db g = 0 := maxVersion_eq_zero db g hg
  obtain ⟨-, -, -, h4, h5, -, -⟩ := insert_some_spec db r g hb
  rw [hmax] at h4
  have hrid : (insertScalar db r (some g)).2.1 = db.nextRecipeId := by
    rw [insertScalar_some]
  rcases hI : insertInstructions (insertScalar db r (some g)).1
      (insertScalar db r (some g)).2.1 r.instructions with ⟨db2, e⟩
  have he : e = none := by
    have hh := insertInstructions_ok (insertScalar db r (some g)).2.1 r.instructions hins
        (insertScalar db r (some g)).1
    rw [hI] at hh
    simpa using hh
  subst he
  have hrd : runDetails (insertScalar db r (some g)).1 (insertScalar db r (some g)).2.1 r
      = (db2, none) := by
    unfold runDetails
    rw [hI]
    simp [hing, htag, insertIngredients, insertTags]
  have hres : (insert_recipe db r (some g)).2
      = Except.ok (insertScalar db r (some g)).2.1 := by
    simp only [insert_recipe, hrd]
  rw [hrid] at hres
  exact ⟨hres, h4, h5⟩

/-- Witness for the amended C7: group 99 does not exist in the fresh
database, yet the call succeeds with version 1. -/
theorem missing_group_not_rejected_witness :
    recipesBound DB.empty ∧
    (∀ row ∈ DB.empty.recipes, row.group ≠ some 99) ∧
    none ∉ c7rec.instructions ∧
    c7rec.ingredients = [] ∧
    c7rec.tags = [] ∧
    ((insert_recipe DB.empty c7rec (some 99)).2 = Except.ok DB.empty.nextRecipeId ∧
     versionOf (insert_recipe DB.empty c7rec (some 99)).1 DB.empty.nextRecipeId = some 1 ∧
     groupOf (insert_recipe DB.empty c7rec (some 99)).1 DB.empty.nextRecipeId
        = some (some 99)) :=
  ⟨by decide, by simp [DB.empty], by simp [c7rec], rfl, rfl,
   missing_group_not_rejected DB.empty c7rec 99 (by decide) (by simp [DB.empty])
     (by simp [c7rec]) rfl rfl⟩

/-! ### C8: only the top-level tag names are persisted -/

/-- The tags table after `get_or_create_tag`: unchanged when the name was
found, otherwise extended by exactly one row carrying the tag's own name. -/
theorem get_or_create_tag_tags (db : DB) (t : Tag) :
    ((get_or_create_tag db t).1).tags = db.tags ∨
    ((get_or_create_tag db t).1).tags
        = db.tags ++ [(⟨db.nextTagId, Tag.name t⟩ : TagRow)] := by
  rcases hf : db.tags.find? (fun row => row.name == Tag.name t) with - | row
  · right; simp [get_or_create_tag, hf]
  · left; simp [get_or_create_tag, hf]

/-- After `get_or_create_tag` a row carrying the tag's name exists. -/
theorem get_or_create_tag_provides (db : DB) (t : Tag) :
    ∃ row ∈ ((get_or_create_tag db t).1).tags, row.name = Tag.name t := by
  rcases hf : db.tags.find? (fun row => row.name == Tag.name t) with - | row
  · have hstep : (get_or_create_tag db t).1
        = { db with tags := db.tags ++ [(⟨db.nextTagId, Tag.name t⟩ : TagRow)],
                    nextTagId := db.nextTagId + 1 } := by
      simp [get_or_create_tag, hf]
    rw [hstep]
    exact ⟨⟨db.nextTagId, Tag.name t⟩, by simp, rfl⟩
  · have hstep : (get_or_create_tag db t).1 = db := by
      simp [get_or_create_tag, hf]
    rw [hstep]
    refine ⟨row, List.mem_of_find?_eq_some hf, ?_⟩
    have hp := @List.find?_some TagRow (fun r => r.name == Tag.name t) row db.tags hf
    simpa using hp

theorem get_or_create_tag_tags_mono (db : DB) (t : Tag) (row : TagRow)
    (h : row ∈ db.tags) : row ∈ ((get_or_create_tag db t).1).tags := by
  rcases get_or_create_tag_tags db t with he | he <;> rw [he] <;> simp [h]

theorem insertTags_tags_mono (rid : Nat) (l : List (Option Tag)) :
    ∀ (db : DB) (row : TagRow), row ∈ db.tags → row ∈ ((insertTags db rid l).1).tags := by
  induction l with
  | nil => intro db row h; simpa [insertTags] using h
  | cons x rest ih =>
      intro db row h
      cases x with
      | none => simpa [insertTags] using h
      | some t =>
          rcases hg : get_or_create_tag db t with ⟨dbg, tid⟩
          have hm : row ∈ dbg.tags := by
            have := get_or_create_tag_tags_mono db t row h
            rwa [hg] at this
          simp only [insertTags, hg]
          by_cases hc :
              (dbg.recipe_tags.any (fun l => l.recipe_id == rid && l.tag_id == tid)) = true
          · simpa [hc] using hm
          · simp only [hc, if_false, Bool.false_eq_true]
            exact ih _ row (by simpa using hm)

/-- Every tags row present after the tag loop is either an old row or carries
the name of one of the loop's own (top-level) tags — nested children are
never written. -/
theorem insertTags_tags_sub (rid : Nat) (l : List (Option Tag)) :
    ∀ db : DB, ∀ row ∈ ((insertTags db rid l).1).tags,
      row ∈ db.tags ∨ ∃ t : Tag, some t ∈ l ∧ row.name = Tag.name t := by
  induction l with
  | nil => intro db row hrow; left; simpa [insertTags] using hrow
  | cons x rest ih =>
      intro db row hrow
      cases x with
      | none => left; simpa [insertTags] using hrow
      | some t =>
          rcases hg : get_or_create_tag db t with ⟨dbg, tid⟩
          have htags : dbg.tags = db.tags ∨
              dbg.tags = db.tags ++ [(⟨db.nextTagId, Tag.name t⟩ : TagRow)] := by
            have := get_or_create_tag_tags db t
            rwa [hg] at this
          have hOld : ∀ rw ∈ dbg.tags, rw ∈ db.tags ∨ rw.name = Tag.name t := by
            intro rw hrw
            rcases htags with he | he
            · left; rwa [he] at hrw
            · rw [he] at hrw
              rcases List.mem_append.mp hrw with h1 | h1
              · left; exact h1
              · right; simp only [List.mem_singleton] at h1; rw [h1]
          simp only [insertTags, hg] at hrow
          by_cases hc :
              (dbg.recipe_tags.any (fun l => l.recipe_id == rid && l.tag_id == tid)) = true
          · rw [if_pos hc] at hrow
            simp only at hrow
            rcases hOld row hrow with h | h
            · left; exact h
            · right; exact ⟨t, List.mem_cons_self _ _, h⟩
          · rw [if_neg hc] at hrow
            rcases ih { dbg with recipe_tags := dbg.recipe_tags ++ [⟨rid, tid⟩] } row hrow
              with hin | ⟨t', ht', hn⟩
            · simp only at hin
              rcases hOld row hin with h | h
              · left; exact h
              · right; exact ⟨t, List.mem_cons_self _ _, h⟩
            · right; exact ⟨t', List.mem_cons_of_mem _ ht', hn⟩

/-- When the tag loop succeeds, every top-level tag of the list ends up with
a row carrying its name. -/
theorem insertTags_tags_mem (rid : Nat) (l : List (Option Tag)) :
    ∀ db : DB, (insertTags db rid l).2 = none →
      ∀ t : Tag, some t ∈ l →
        ∃ row ∈ ((insertTags db rid l).1).tags, row.name = Tag.name t := by
  induction l with
  | nil => intro db hok t ht; simp at ht
  | cons x rest ih =>
      intro db hok t ht
      cases x with
      | none => simp [insertTags] at hok
      | some t' =>
          rcases hg : get_or_create_tag db t' with ⟨dbg, tid⟩
          simp only [insertTags, hg] at hok ⊢
          by_cases hc :
              (dbg.recipe_tags.any (fun l => l.recipe_id == rid && l.tag_id == tid)) = true
          · rw [if_pos hc] at hok; simp at hok
          · rw [if_neg hc] at hok ⊢
            rcases List.mem_cons.mp ht with he | hm
            · have ht' : t = t' := by injection he
              subst ht'
              obtain ⟨row, hrmem, hrname⟩ := get_or_create_tag_provides db t
              rw [hg] at hrmem
              simp only at hrmem
              refine ⟨row, ?_, hrname⟩
              exact insertTags_tags_mono rid rest _ row (by simpa using hrmem)
            · exact ih _ hok t hm

/-- `insertScalar` touches only the recipes table and its id counter. -/
theorem insertScalar_other (db : DB) (r : Recipe) (g : Option Nat) :
    ((insertScalar db r g).1).ingredients = db.ingredients ∧
    ((insertScalar db r g).1).instructions = db.instructions ∧
    ((insertScalar db r g).1).tags = db.tags ∧
    ((insertScalar db r g).1).recipe_ingredients = db.recipe_ingredients ∧
    ((insertScalar db r g).1).recipe_tags = db.recipe_tags ∧
    ((insertScalar db r g).1).nextInstructionId = db.nextInstructionId ∧
    ((insertScalar db r g).1).nextTagId = db.nextTagId ∧
    ((insertScalar db r g).1).nextIngredientId = db.nextIngredientId := by
  cases g <;> simp [insertScalar]

/-- Tag-table effect of the whole detail phase. -/
theorem runDetails_tags (db : DB) (rid : Nat) (r : Recipe) :
    (∀ row ∈ ((runDetails db rid r).1).tags,
        row ∈ db.tags ∨ ∃ t : Tag, some t ∈ r.tags ∧ row.name = Tag.name t) ∧
    ((runDetails db rid r).2 = none →
        ∀ t : Tag, some t ∈ r.tags →
          ∃ row ∈ ((runDetails db rid r).1).tags, row.name = Tag.name t) := by
  rcases hI : insertInstructions db rid r.instructions with ⟨db2, eI⟩
  obtain ⟨-, -, -, -, hIt, -, -, -⟩ := insertInstructions_frame rid r.instructions db
  rw [hI] at hIt
  simp only at hIt
  cases eI with
  | some e =>
      constructor
      · intro row hrow
        left
        have : row ∈ db2.tags := by simpa [runDetails, hI] using hrow
        rwa [hIt] at this
      · intro hok
        simp [runDetails, hI] at hok
  | none =>
      rcases hG : insertIngredients db2 rid r.ingredients with ⟨db3, eG⟩
      obtain ⟨-, -, -, -, hGt, -, -⟩ := insertIngredients_frame rid r.ingredients db2
      rw [hG] at hGt
      simp only at hGt
      cases eG with
      | some e =>
          constructor
          · intro row hrow
            left
            have : row ∈ db3.tags := by simpa [runDetails, hI, hG] using hrow
            rw [hGt, hIt] at this
            exact this
          · intro hok
            simp [runDetails, hI, hG] at hok
      | none =>
          have hRD : runDetails db rid r = insertTags db3 rid r.tags := by
            simp [runDetails, hI, hG]
          rw [hRD]
          constructor
          · intro row hrow
            rcases insertTags_tags_sub rid r.tags db3 row hrow with hin | hnew
            · left
              rw [hGt, hIt] at hin
              exact hin
            · right; exact hnew
          · intro hok t ht
            exact insertTags_tags_mem rid r.tags db3 hok t ht

/-- **C8 (amended)**: writing a recipe resolves/creates only each top-level
tag's own name in the `tags` table: every row present afterwards is either a
pre-existing row or carries the name of a top-level tag of the recipe — so a
nested child tag (`Tag.children`) is never resolved or created and its
existence is NOT guaranteed — and on success every top-level tag does get a
row with its name. -/
theorem tags_toplevel_only (db : DB) (r : Recipe) (g : Option Nat) :
    (∀ row ∈ ((insert_recipe db r g).1).tags,
        row ∈ db.tags ∨ ∃ t : Tag, some t ∈ r.tags ∧ row.name = Tag.name t) ∧
    (∀ v, (insert_recipe db r g).2 = Except.ok v →
        ∀ t : Tag, some t ∈ r.tags →
          ∃ row ∈ ((insert_recipe db r g).1).tags, row.name = Tag.name t) := by
  obtain ⟨-, -, hst, -, -, -, -, -⟩ := insertScalar_other db r g
  obtain ⟨hsub, hmem⟩ := runDetails_tags (insertScalar db r g).1 (insertScalar db r g).2.1 r
  rw [hst] at hsub
  rcases hR : runDetails (insertScalar db r g).1 (insertScalar db r g).2.1 r with ⟨db4, e⟩
  rw [hR] at hsub hmem
  simp only at hsub hmem
  have hpost : (insert_recipe db r g).1 = db4 := by
    simp only [insert_recipe, hR]
    cases e <;> simp
  constructor
  · intro row hrow
    rw [hpost] at hrow
    exact hsub row hrow
  · intro v hok t ht
    have henone : e = none := by
      cases e with
      | none => rfl
      | some e' =>
          rw [show (insert_recipe db r g).2 = Except.error e' by
                simp only [insert_recipe, hR]] at hok
          cases hok
    subst henone
    rw [hpost]
    exact hmem rfl t ht

/-- Recipe carrying a nested child tag, used by the C8 counterexample. -/
def c8rec : Recipe :=
  { title := "Cake", ingredients := [], instructions := [],
    tags := [some (Tag.mk "Dessert" (some (Tag.mk "Sweet" none)))] }

/-- **C8 (counterexample)**: writing a recipe whose tag "Dessert" nests the
child tag "Sweet" succeeds but creates only the "Dessert" row; no row named
"Sweet" exists afterwards, so the nested child tag is NOT resolved/created
and its existence is not guaranteed. -/
theorem nested_child_tag_not_created :
    (insert_recipe DB.empty c8rec none).2 = Except.ok 1 ∧
    ((insert_recipe DB.empty c8rec none).1).tags = [⟨1, "Dessert"⟩] ∧
    (((insert_recipe DB.empty c8rec none).1).tags.find?
        (fun row => row.name == "Sweet")) = none := by
  decide

/-- Witness for the amended C8 on the nested-tag recipe. -/
theorem tags_toplevel_only_witness :
    (∀ row ∈ ((insert_recipe DB.empty c8rec none).1).tags,
        row ∈ DB.empty.tags ∨
          ∃ t : Tag, some t ∈ c8rec.tags ∧ row.name = Tag.name t) ∧
    (∀ v, (insert_recipe DB.empty c8rec none).2 = Except.ok v →
        ∀ t : Tag, some t ∈ c8rec.tags →
          ∃ row ∈ ((insert_recipe DB.empty c8rec none).1).tags,
            row.name = Tag.name t) :=
  tags_toplevel_only DB.empty c8rec none

/-! ### C9: the DDL declares no UNIQUE(name) -/

/-- **C9 (counterexample)**: it is false that the schema created by
`create_tables` declares a uniqueness constraint on the `name` column of the
`ingredients` and `tags` tables — neither `CREATE TABLE` statement contains a
`UNIQUE` constraint at all. -/
theorem unique_name_claim_false :
    ¬ ((create_tables.all (fun t =>
          !(t.name == "ingredients" || t.name == "tags")
            || declaresUniqueOn t "name")) = true) := by
  decide

/-- **C9 (amended)**: the stored schema declares NO uniqueness constraint on
the `name` column of `ingredients` or of `tags` (both tables are present and
declare `name` only as `TEXT NOT NULL`); uniqueness of names is maintained
solely by the lookup-or-create logic of the deduplicator, not by the schema. -/
theorem schema_lacks_unique_name :
    (create_tables.all (fun t =>
        !(t.name == "ingredients" || t.name == "tags")
          || !(declaresUniqueOn t "name"))) = true ∧
    (create_tables.any (fun t => t.name == "ingredients")) = true ∧
    (create_tables.any (fun t => t.name == "tags")) = true ∧
    (create_tables.all (fun t =>
        !(t.name == "ingredients" || t.name == "tags")
          || t.columns.any (fun c =>
               c.name == "name" && c.constraints.contains ColumnConstraint.notNull)))
      = true := by
  decide

/-! ### C10: `None` entries are only hit after the scalar row is written -/

theorem insertInstructions_err_of_none (rid : Nat) (l : List (Option Instruction))
    (h : none ∈ l) :
    ∀ db : DB, (insertInstructions db rid l).2 = some DBError.attributeError := by
  induction l with
  | nil => intro db; simp at h
  | cons x rest ih =>
      intro db
      cases x with
      | none => simp [insertInstructions]
      | some i =>
          have h' : none ∈ rest := by simpa using h
          simp only [insertInstructions]
          exact ih h' _

theorem insertIngredients_err_of_none (rid : Nat) (l : List (Option RecipeIngredient))
    (h : none ∈ l) : ∀ db : DB, ∃ e, (insertIngredients db rid l).2 = some e := by
  induction l with
  | nil => intro db; simp at h
  | cons x rest ih =>
      intro db
      cases x with
      | none => exact ⟨DBError.attributeError, by simp [insertIngredients]⟩
      | some ri =>
          have h' : none ∈ rest := by simpa using h
          rcases hg : get_or_create_ingredient db ri.ingredient with ⟨dbg, iid⟩
          simp only [insertIngredients, hg]
          by_cases hc :
              (dbg.recipe_ingredients.any
                (fun l => l.recipe_id == rid && l.ingredient_id == iid)) = true
          · rw [if_pos hc]; exact ⟨DBError.integrityError, rfl⟩
          · rw [if_neg hc]; exact ih h' _

theorem insertTags_err_of_none (rid : Nat) (l : List (Option Tag))
    (h : none ∈ l) : ∀ db : DB, ∃ e, (insertTags db rid l).2 = some e := by
  induction l with
  | nil => intro db; simp at h
  | cons x rest ih =>
      intro db
      cases x with
      | none => exact ⟨DBError.attributeError, by simp [insertTags]⟩
      | some t =>
          have h' : none ∈ rest := by simpa using h
          rcases hg : get_or_create_tag db t with ⟨dbg, tid⟩
          simp only [insertTags, hg]
          by_cases hc :
              (dbg.recipe_tags.any (fun l => l.recipe_id == rid && l.tag_id == tid)) = true
          · rw [if_pos hc]; exact ⟨DBError.integrityError, rfl⟩
          · rw [if_neg hc]; exact ih h' _

/-- A `None` entry in any of the three lists makes the detail phase fail; a
`None` among the instructions (hit first) yields precisely the
`AttributeError`. -/
theorem runDetails_err_of_none (db : DB) (rid : Nat) (r : Recipe)
    (h : none ∈ r.instructions ∨ none ∈ r.ingredients ∨ none ∈ r.tags) :
    (∃ e, (runDetails db rid r).2 = some e) ∧
    (none ∈ r.instructions →
        (runDetails db rid r).2 = some DBError.attributeError) := by
  rcases hI : insertInstructions db rid r.instructions with ⟨db2, eI⟩
  cases eI with
  | some e =>
      have hrd : (runDetails db rid r).2 = some e := by simp [runDetails, hI]
      refine ⟨⟨e, hrd⟩, fun hni => ?_⟩
      have he := insertInstructions_err_of_none rid r.instructions hni db
      rw [hI] at he
      simp only at he
      rw [hrd, he]
  | none =>
      have hnotI : none ∉ r.instructions := by
        intro hni
        have he := insertInstructions_err_of_none rid r.instructions hni db
        rw [hI] at he
        simp at he
      refine ⟨?_, fun hni => absurd hni hnotI⟩
      have h' : none ∈ r.ingredients ∨ none ∈ r.tags := by
        rcases h with h1 | h2 | h3
        · exact absurd h1 hnotI
        · exact Or.inl h2
        · exact Or.inr h3
      rcases hG : insertIngredients db2 rid r.ingredients with ⟨db3, eG⟩
      cases eG with
      | some e => exact ⟨e, by simp [runDetails, hI, hG]⟩
      | none =>
          have hnotG : none ∉ r.ingredients := by
            intro hng
            obtain ⟨e, he⟩ := insertIngredients_err_of_none rid r.ingredients hng db2
            rw [hG] at he
            simp at he
          have h'' : none ∈ r.tags := by
            rcases h' with h2 | h3
            · exact absurd h2 hnotG
            · exact h3
          obtain ⟨e, he⟩ := insertTags_err_of_none rid r.tags h'' db3
          refine ⟨e, ?_⟩
          rw [show runDetails db rid r = insertTags db3 rid r.tags by
                simp [runDetails, hI, hG]]
          exact he

/-- The whole detail phase changes the instructions table exactly the way the
instructions loop alone does (the other two loops never touch it). -/
theorem runDetails_instructions (db : DB) (rid : Nat) (r : Recipe) :
    ((runDetails db rid r).1).instructions
        = ((insertInstructions db rid r.instructions).1).instructions := by
  rcases hI : insertInstructions db rid r.instructions with ⟨db2, eI⟩
  simp only
  cases eI with
  | some e => simp [runDetails, hI]
  | none =>
      rcases hG : insertIngredients db2 rid r.ingredients with ⟨db3, eG⟩
      obtain ⟨-, -, hGi, -, -, -, -⟩ := insertIngredients_frame rid r.ingredients db2
      rw [hG] at hGi
      simp only at hGi
      cases eG with
      | some e => simp [runDetails, hI, hG, hGi]
      | none =>
          obtain ⟨-, -, hTi, -, -, -, -⟩ := insertTags_frame rid r.tags db3
          simp [runDetails, hI, hG, hTi, hGi]

theorem insertInstructions_mono (rid : Nat) (l : List (Option Instruction)) :
    ∀ db : DB, ∀ row ∈ db.instructions,
      row ∈ ((insertInstructions db rid l).1).instructions := by
  induction l with
  | nil => intro db row h; simpa [insertInstructions] using h
  | cons x rest ih =>
      intro db row h
      cases x with
      | none => simpa [insertInstructions] using h
      | some i =>
          simp only [insertInstructions]
          exact ih _ row (by simp [h])

/-- Every instruction in the prefix before the first `None` entry gets its
row inserted (with the revision's id), whatever happens afterwards. -/
theorem insertInstructions_prefix_mem (rid : Nat) (l : List (Option Instruction)) :
    ∀ db : DB, ∀ i : Instruction, some i ∈ l.takeWhile Option.isSome →
      ∃ row ∈ ((insertInstructions db rid l).1).instructions,
        row.recipe_id = rid ∧ row.step_number = i.step_number ∧
        row.description = i.description := by
  induction l with
  | nil => intro db i h; simp [List.takeWhile] at h
  | cons x rest ih =>
      intro db i h
      cases x with
      | none => simp [List.takeWhile] at h
      | some j =>
          rw [show (some j :: rest).takeWhile Option.isSome
                = some j :: rest.takeWhile Option.isSome by simp [List.takeWhile]] at h
          rcases List.mem_cons.mp h with he | hm
          · have hij : i = j := by injection he
            subst hij
            refine ⟨⟨db.nextInstructionId, rid, i.step_number, i.description⟩, ?_, rfl, rfl, rfl⟩
            simp only [insertInstructions]
            exact insertInstructions_mono rid rest _ _ (by simp)
          · simp only [insertInstructions]
            exact ih _ i hm

/-- **C10**: if any of the three lists of a recipe contains a `None` entry —
which the data model's types permit — then `insert_recipe` raises an uncaught
error (precisely the `AttributeError` of the `None` dereference when the
`None` sits among the instructions, which are processed first), and it does
so only after storage writes have begun: the scalar recipe row is already
inserted with its group/version assignment, and every instruction of the
prefix before the first `None` already has its row. The `None` entry is not
rejected at the boundary. -/
theorem none_entry_late_failure (db : DB) (r : Recipe) (g : Option Nat)
    (hb : recipesBound db)
    (hnone : none ∈ r.instructions ∨ none ∈ r.ingredients ∨ none ∈ r.tags) :
    (∃ e, (insert_recipe db r g).2 = Except.error e) ∧
    (none ∈ r.instructions →
        (insert_recipe db r g).2 = Except.error DBError.attributeError) ∧
    versionOf (insert_recipe db r g).1 db.nextRecipeId
        = some (Option.elim g 1 (fun gg => maxVersion db gg + 1)) ∧
    (∀ i : Instruction, some i ∈ r.instructions.takeWhile Option.isSome →
        ∃ row ∈ ((insert_recipe db r g).1).instructions,
          row.recipe_id = db.nextRecipeId ∧ row.step_number = i.step_number ∧
          row.description = i.description) := by
  have hrid : (insertScalar db r g).2.1 = db.nextRecipeId := by
    cases g <;> simp [insertScalar]
  obtain ⟨herr, hattr⟩ :=
    runDetails_err_of_none (insertScalar db r g).1 (insertScalar db r g).2.1 r hnone
  rcases hR : runDetails (insertScalar db r g).1 (insertScalar db r g).2.1 r with ⟨db4, e⟩
  rw [hR] at herr hattr
  simp only at herr hattr
  obtain ⟨e0, he0⟩ := herr
  subst he0
  have hres : (insert_recipe db r g).2 = Except.error e0 := by
    simp only [insert_recipe, hR]
  have hpost : (insert_recipe db r g).1 = db4 := by
    simp only [insert_recipe, hR]
  refine ⟨⟨e0, hres⟩, ?_, ?_, ?_⟩
  · intro hni
    have he := hattr hni
    rw [hres, Option.some.inj he]
  · cases g with
    | none =>
        obtain ⟨-, -, -, h4, -, -⟩ := insert_none_spec db r hb
        simpa using h4
    | some gg =>
        obtain ⟨-, -, -, h4, -, -, -⟩ := insert_some_spec db r gg hb
        simpa using h4
  · intro i hi
    rw [hpost]
    have hrdi := runDetails_instructions (insertScalar db r g).1 (insertScalar db r g).2.1 r
    rw [hR] at hrdi
    simp only at hrdi
    rw [hrdi, hrid]
    exact insertInstructions_prefix_mem db.nextRecipeId r.instructions
        (insertScalar db r g).1 i hi

/-- Recipe whose instructions list contains a `None` in second position. -/
def c10rec : Recipe :=
  { title := "Broken",
    ingredients := [some ⟨⟨"Salt", none⟩, 1, Unit.gram⟩],
    instructions := [some ⟨1, "Boil"⟩, none, some ⟨3, "Serve"⟩],
    tags := [] }

/-- Witness for C10: the `None` instruction entry aborts the call with the
dereference error, yet the scalar row (id 1, version 1) and the instruction
row of the prefix before the `None` are already stored. -/
theorem none_entry_late_failure_witness :
    recipesBound DB.empty ∧
    (none ∈ c10rec.instructions ∨ none ∈ c10rec.ingredients ∨ none ∈ c10rec.tags) ∧
    ((∃ e, (insert_recipe DB.empty c10rec none).2 = Except.error e) ∧
     (none ∈ c10rec.instructions →
        (insert_recipe DB.empty c10rec none).2 = Except.error DBError.attributeError) ∧
     versionOf (insert_recipe DB.empty c10rec none).1 DB.empty.nextRecipeId
        = some (Option.elim none 1 (fun gg => maxVersion DB.empty gg + 1)) ∧
     (∀ i : Instruction, some i ∈ c10rec.instructions.takeWhile Option.isSome →
        ∃ row ∈ ((insert_recipe DB.empty c10rec none).1).instructions,
          row.recipe_id = DB.empty.nextRecipeId ∧ row.step_number = i.step_number ∧
          row.description = i.description)) :=
  ⟨by decide, by simp [c10rec],
   none_entry_late_failure DB.empty c10rec none (by decide) (by simp [c10rec])⟩

end Prototype
